import Mathlib

/-!
Shallow embedding of the COUNTRY.SYS decoder from `cntrydump.py`.

The input buffer is modelled as `List Nat` (one byte per element, values
0..255).  Python's bounds-checked reads are mirrored by the same explicit
bounds checks; `byteAt` defaults to 0, which is never reached on the paths
the source actually takes (every `struct.unpack_from` / index in the source
is guarded by a preceding length check, and the embedding keeps those
guards).  Fallible paths (`raise ValidationError`) are modelled with
`Except String`.  The append-only `warnings` list is threaded explicitly.

Diagnostic strings reproduce the source's f-strings, including its hex
formatting (`:#x` lowercase with 0x prefix, `:04X` zero-padded uppercase,
plain decimal otherwise).
-/

namespace CntryDump

/-- Read one byte of the buffer; the source only indexes inside bounds. -/
def byteAt (buf : List Nat) (i : Nat) : Nat := buf.getD i 0

/-- `struct.unpack_from("<H", buf, i)`: little-endian 16-bit read. -/
def readU16 (buf : List Nat) (i : Nat) : Nat :=
  byteAt buf i + 256 * byteAt buf (i + 1)

/-- `struct.unpack_from("<I", buf, i)`: little-endian 32-bit read. -/
def readU32 (buf : List Nat) (i : Nat) : Nat :=
  byteAt buf i + 256 * byteAt buf (i + 1) + 65536 * byteAt buf (i + 2)
    + 16777216 * byteAt buf (i + 3)

/-- Python slice `buf[a:b]` (clamped at both ends). -/
def slice (buf : List Nat) (a b : Nat) : List Nat :=
  (buf.drop a).take (b - a)

/-- `bytes.rstrip(strip)`: drop trailing bytes that belong to `strip`. -/
def rstripBytes (bs : List Nat) (strip : List Nat) : List Nat :=
  ((bs.reverse).dropWhile (fun b => b ∈ strip)).reverse

/-- Lowercase hex digit for a value < 16. -/
def hexDigitL (d : Nat) : Char :=
  if d < 10 then Char.ofNat (48 + d) else Char.ofNat (87 + d)

/-- Uppercase hex digit for a value < 16. -/
def hexDigitU (d : Nat) : Char :=
  if d < 10 then Char.ofNat (48 + d) else Char.ofNat (55 + d)

/-- Fuelled hex digit accumulation (fuel `n+1` always suffices). -/
def hexCore (digit : Nat → Char) : Nat → Nat → List Char → List Char
  | 0, _, acc => acc
  | fuel + 1, n, acc =>
    if n < 16 then digit n :: acc
    else hexCore digit fuel (n / 16) (digit (n % 16) :: acc)

/-- Python `f"{n:x}"`. -/
def hexL (n : Nat) : String := String.mk (hexCore hexDigitL (n + 1) n [])

/-- Python `f"{n:X}"`. -/
def hexU (n : Nat) : String := String.mk (hexCore hexDigitU (n + 1) n [])

/-- Python `f"{n:#x}"`. -/
def hex0x (n : Nat) : String := "0x" ++ hexL n

/-- Python `f"{n:04X}"`. -/
def hex04X (n : Nat) : String :=
  let s := hexU n
  String.mk (List.replicate (4 - s.length) (Char.ofNat 48) ++ s.data)

/-- Python `f"{n:02X}"`. -/
def hex02X (n : Nat) : String :=
  let s := hexU n
  String.mk (List.replicate (2 - s.length) (Char.ofNat 48) ++ s.data)

/-- `bytes.decode("ascii", "replace")`: bytes ≥ 0x80 become U+FFFD. -/
def decodeAsciiReplace (bs : List Nat) : String :=
  String.mk (bs.map (fun b => if b < 128 then Char.ofNat b else Char.ofNat 0xFFFD))

/-- `str.rstrip(cs)` over an explicit character set. -/
def rstripChars (s : String) (cs : List Char) : String :=
  String.mk ((s.data.reverse.dropWhile (fun c => c ∈ cs)).reverse)

/-- `_asciiz`: split at the first NUL, render printable ASCII, hex-escape
the rest, `<unspecified>` when empty. -/
def asciiz (bs : List Nat) : String :=
  let s := bs.takeWhile (fun c => c ≠ 0)
  if s.isEmpty then "<unspecified>"
  else String.join (s.map (fun c =>
    if 0x20 ≤ c ∧ c < 0x7F then String.singleton (Char.ofNat c)
    else "\\x" ++ hex02X c))

/-- `_hex`: space-separated `0xHH` rendering of a byte string. -/
def hexBytes (bs : List Nat) : String :=
  String.intercalate " " (bs.map (fun b => "0x" ++ hex02X b))

/-- Python `repr` of a tuple of strings, as it appears in diagnostics. -/
def tupleRepr (xs : List String) : String :=
  match xs with
  | [x] => "(\x27" ++ x ++ "\x27,)"
  | _ => "(" ++ String.intercalate ", " (xs.map (fun x => "\x27" ++ x ++ "\x27")) ++ ")"

/-- Far pointer (segment:offset) decoded from a raw 32-bit value. -/
structure FarPtr where
  raw_u32 : Nat
  seg : Nat
  off : Nat
  linear : Nat
  deriving Repr, DecidableEq

/-- `decode_far_ptr`: split a raw 32-bit value into segment/offset and
resolve a linear address, appending diagnostics to `warnings`.  Mirrors the
Python statement by statement, including the chained comparison
`linear != off != raw` (which is `linear ≠ off ∧ off ≠ raw`). -/
def decode_far_ptr (u32 : Nat) (file_len : Nat) (warnings : List String)
    (ctx : String) : FarPtr × List String :=
  let raw := u32 % 4294967296
  let off := raw % 65536
  let seg := raw / 65536 % 65536
  let linear0 := seg * 16 + off
  let linear1 := if seg = 0 then off else linear0
  let linear2 := if linear1 > file_len ∧ off ≤ file_len then off else linear1
  let w2 :=
    if linear1 > file_len ∧ off ≤ file_len then
      warnings ++ [ctx ++ ": far ptr " ++ hex04X seg ++ ":" ++ hex04X off
        ++ " => " ++ hex0x linear1 ++ " beyond EOF; using low16 " ++ hex0x off]
    else warnings
  let w3 :=
    if linear2 > file_len then
      w2 ++ [ctx ++ ": pointer " ++ hex0x linear2 ++ " beyond file length "
        ++ Nat.repr file_len]
    else w2
  let linear3 := if linear2 ≠ off ∧ off ≠ raw then off else linear2
  let w4 :=
    if linear2 ≠ off ∧ off ≠ raw then
      w3 ++ [ctx ++ ": " ++ hex04X raw ++ " != " ++ hex04X off ++ " != "
        ++ hex0x linear2 ++ "; using low16 " ++ hex0x off]
    else w3
  (⟨raw, seg, off, linear3⟩, w4)

/-- Primitive field types used with `token_fit_unpack` (struct format
characters `B`, `H`, `I`, `ns`). -/
inductive FTy where
  | u8
  | u16
  | u32
  | str (n : Nat)
  deriving Repr, DecidableEq

/-- `struct.calcsize` of a field type. -/
def FTy.size : FTy → Nat
  | .u8 => 1
  | .u16 => 2
  | .u32 => 4
  | .str n => n

/-- A decoded field value: an unsigned integer or a byte string. -/
inductive FieldVal where
  | nat (n : Nat)
  | bytes (bs : List Nat)
  deriving Repr, DecidableEq

/-- `struct.unpack_from` of one field at a position (guarded by the caller
so the read is in bounds). -/
def unpackAt (data : List Nat) (ty : FTy) (pos : Nat) : FieldVal :=
  match ty with
  | .u8 => .nat (byteAt data pos)
  | .u16 => .nat (readU16 data pos)
  | .u32 => .nat (readU32 data pos)
  | .str n => .bytes (slice data pos (pos + n))

/-- One schema entry: `(name, format, default)`. -/
structure Field where
  name : String
  ty : FTy
  default : FieldVal
  deriving Repr, DecidableEq

/-- Loop body of `token_fit_unpack`: walk the schema, decoding each field
whose width still fits past the cursor and substituting the default
otherwise (the cursor advances only on success). -/
def tokenFitGo (data : List Nat) (pos : Nat) :
    List Field → List (String × FieldVal) × Nat
  | [] => ([], pos)
  | f :: rest =>
    let sz := f.ty.size
    if pos + sz ≤ data.length then
      let r := tokenFitGo data (pos + sz) rest
      ((f.name, unpackAt data f.ty pos) :: r.1, r.2)
    else
      let r := tokenFitGo data pos rest
      ((f.name, f.default) :: r.1, r.2)

/-- Result of `token_fit_unpack`: the per-field values in schema order plus
the `_used` and `_extra` entries of the returned dict. -/
structure TokenFit where
  fields : List (String × FieldVal)
  used : Nat
  extra : List Nat
  deriving Repr, DecidableEq

/-- `token_fit_unpack`: tolerant schema-driven decode. -/
def token_fit_unpack (data : List Nat) (fields : List Field) : TokenFit :=
  let r := tokenFitGo data 0 fields
  ⟨r.1, r.2, data.drop r.2⟩

/-- Assoc lookup of an integer field of a `token_fit_unpack` result. -/
def getNat (out : List (String × FieldVal)) (k : String) : Nat :=
  match out.find? (fun p => p.1 = k) with
  | some (_, .nat n) => n
  | _ => 0

/-- Assoc lookup of a byte-string field of a `token_fit_unpack` result. -/
def getBytes (out : List (String × FieldVal)) (k : String) : List Nat :=
  match out.find? (fun p => p.1 = k) with
  | some (_, .bytes bs) => bs
  | _ => []

/-- Tagged data structure: tag byte, 7-byte magic, size word, payload. -/
structure Tagged where
  offset : Nat
  tag : Nat
  magic_raw : List Nat
  magic : String
  size : Nat
  payload : List Nat
  dbcs_dummy_word : Option Nat := none
  deriving Repr, DecidableEq

/-- `parse_tagged`: read a tagged structure at `off`, tolerating a
truncated header (zeroed block) and a truncated payload (clamped). -/
def parse_tagged (buf : List Nat) (off : Nat) (warnings : List String)
    (ctx : String) : Tagged × List String :=
  let flen := buf.length
  if off + 10 > flen then
    (⟨off, 0, [], "", 0, [], none⟩,
     warnings ++ [ctx ++ ": tagged header truncated at " ++ hex0x off])
  else
    let tag := byteAt buf off
    let magic_raw := slice buf (off + 1) (off + 8)
    let size := readU16 buf (off + 8)
    let magic_clean := decodeAsciiReplace (rstripBytes magic_raw [32, 0])
    let stop := off + 10 + size
    let payload := if stop > flen then slice buf (off + 10) flen
      else slice buf (off + 10) stop
    let w1 :=
      if stop > flen then
        warnings ++ [ctx ++ ": payload truncated (wanted " ++ Nat.repr size
          ++ " bytes) at " ++ hex0x off]
      else warnings
    let dbcs_dummy :=
      if magic_clean = "DBCS" ∧ size = 0 then
        if off + 12 ≤ flen then some (readU16 buf (off + 10)) else none
      else none
    (⟨off, tag, magic_raw, magic_clean, size, payload, dbcs_dummy⟩, w1)

/-- `DATE_FORMAT_NAMES.get(n, "unknown")`. -/
def dateFormatName (n : Nat) : String :=
  if n = 0 then "MDY" else if n = 1 then "DMY" else if n = 2 then "YMD"
  else "unknown"

/-- `TIME_FORMAT_NAMES.get(n, "unknown")`. -/
def timeFormatName (n : Nat) : String :=
  if n = 0 then "12-hour" else if n = 1 then "24-hour" else "unknown"

/-- The CTYINFO token-fit schema of `decode_ctyinfo`. -/
def ctyinfoFields : List Field :=
  [⟨"country_id", .u16, .nat 0⟩, ⟨"codepage", .u16, .nat 0⟩,
   ⟨"date_format", .u16, .nat 0⟩, ⟨"currency_symbol", .str 5, .bytes []⟩,
   ⟨"thousands_sep", .str 2, .bytes []⟩, ⟨"decimal_sep", .str 2, .bytes []⟩,
   ⟨"date_sep", .str 2, .bytes []⟩, ⟨"time_sep", .str 2, .bytes []⟩,
   ⟨"currency_format", .u8, .nat 0⟩, ⟨"currency_decimals", .u8, .nat 0⟩,
   ⟨"time_format", .u8, .nat 0⟩, ⟨"case_map_ptr_raw", .u32, .nat 0⟩,
   ⟨"data_sep", .str 2, .bytes []⟩, ⟨"reserved", .str 10, .bytes []⟩]

/-- Decoded CTYINFO record (the dict built by `decode_ctyinfo`). -/
structure CtyInfo where
  country_id : Nat
  codepage : Nat
  date_format : Nat
  date_format_name : String
  currency_symbol : String
  thousands_sep : String
  decimal_sep : String
  date_sep : String
  time_sep : String
  currency_format : Nat
  currency_decimals : Nat
  time_format : Nat
  time_format_name : String
  case_map_ptr_raw : Nat
  data_sep : String
  reserved_len : Nat
  extra_len : Nat
  deriving Repr, DecidableEq

/-- `decode_ctyinfo` (its `country` argument is unused by the source). -/
def decode_ctyinfo (tagged : Tagged) (_country : Nat) : CtyInfo :=
  let t := token_fit_unpack tagged.payload ctyinfoFields
  { country_id := getNat t.fields "country_id"
    codepage := getNat t.fields "codepage"
    date_format := getNat t.fields "date_format"
    date_format_name := dateFormatName (getNat t.fields "date_format")
    currency_symbol := asciiz (getBytes t.fields "currency_symbol")
    thousands_sep := asciiz (getBytes t.fields "thousands_sep")
    decimal_sep := asciiz (getBytes t.fields "decimal_sep")
    date_sep := asciiz (getBytes t.fields "date_sep")
    time_sep := asciiz (getBytes t.fields "time_sep")
    currency_format := getNat t.fields "currency_format"
    currency_decimals := getNat t.fields "currency_decimals"
    time_format := getNat t.fields "time_format"
    time_format_name := timeFormatName (getNat t.fields "time_format")
    case_map_ptr_raw := getNat t.fields "case_map_ptr_raw"
    data_sep := asciiz (getBytes t.fields "data_sep")
    reserved_len := (getBytes t.fields "reserved").length
    extra_len := t.extra.length }

/-- Decoded FCHAR record: raw hex when the payload is shorter than its
8 fixed bytes, the field form otherwise. -/
inductive FcharDecoded where
  | raw (raw_hex : String)
  | table (characteristics lowest_char highest_char excluded_first
      excluded_last num_terminators : Nat) (terminators_hex : String)
  deriving Repr, DecidableEq

/-- `decode_fchar`: 8 fixed bytes then a clamped terminator list. -/
def decode_fchar (tagged : Tagged) : FcharDecoded :=
  let p := tagged.payload
  if p.length < 8 then .raw (hexBytes p)
  else
    let nterm := min (byteAt p 7) (p.length - 8)
    .table (byteAt p 0) (byteAt p 1) (byteAt p 2) (byteAt p 4) (byteAt p 5)
      nterm (hexBytes (slice p 8 (8 + nterm)))

/-- Decoded YESNO record. -/
structure YesnoDecoded where
  yes : String
  no : String
  raw_hex : String
  deriving Repr, DecidableEq

/-- The producer-bug note appended by `decode_yesno` when the byte after
the yes character is ASCII digit zero instead of NUL. -/
def misEncodedZeroNote (firstByte : Nat) : String :=
  " ==> " ++ String.singleton (Char.ofNat firstByte)
    ++ " followed by zero mis-encoded as \x270\x27 == 0x30"

/-- `decode_yesno`: two 2-byte prompt fields, flagging the 0x30-for-NUL
producer bug on the yes field. -/
def decode_yesno (tagged : Tagged) : YesnoDecoded :=
  let p := tagged.payload
  let yes0 := if p.length ≥ 2 then asciiz (slice p 0 2) else ""
  let yes :=
    if p.length ≥ 2 ∧ byteAt p 1 = 0x30 then yes0 ++ misEncodedZeroNote (byteAt p 0)
    else yes0
  let no := if p.length ≥ 4 then asciiz (slice p 2 4) else ""
  ⟨yes, no, hexBytes p⟩

/-- Decoded DBCS record. -/
structure DbcsDecoded where
  ranges : List (Nat × Nat)
  dbcs_dummy_word : Option Nat
  payload_len : Nat
  deriving Repr, DecidableEq

/-- The (start,end) pair loop of `decode_dbcs`, stopping at (0,0) or when
fewer than 2 bytes remain. -/
def dbcsRanges : List Nat → List (Nat × Nat)
  | a :: b :: rest => if a = 0 ∧ b = 0 then [] else (a, b) :: dbcsRanges rest
  | _ => []

/-- `decode_dbcs`. -/
def decode_dbcs (tagged : Tagged) : DbcsDecoded :=
  ⟨dbcsRanges tagged.payload, tagged.dbcs_dummy_word, tagged.payload.length⟩

/-- Semantic decode result attached to a subfunction entry. -/
inductive DecodedVal where
  | cty (c : CtyInfo)
  | fchar (f : FcharDecoded)
  | dbcs (d : DbcsDecoded)
  | yesno (y : YesnoDecoded)
  deriving Repr, DecidableEq

/-- `ALLOWED_MAGICS` (an empty list models an absent key). -/
def allowedMagics (subfunc_id : Nat) : List String :=
  if subfunc_id = 1 then ["CTYINFO"]
  else if subfunc_id = 2 then ["UCASE"]
  else if subfunc_id = 3 then ["LCASE"]
  else if subfunc_id = 4 then ["FUCASE", "UCASE"]
  else if subfunc_id = 5 then ["FCHAR"]
  else if subfunc_id = 6 then ["COLLATE"]
  else if subfunc_id = 7 then ["DBCS"]
  else if subfunc_id = 20 then ["CCTORC"]
  else if subfunc_id = 21 then ["ARAMODE"]
  else if subfunc_id = 35 then ["YESNO"]
  else []

/-- `validate_magic_and_tag`: consistency check between a subfunction id
and its tagged block; raises (`.error`) only under strict mode. -/
def validate_magic_and_tag (subfunc_id : Nat) (tagged : Tagged)
    (warnings : List String) (strict : Bool) : Except String (List String) :=
  let allowed := allowedMagics subfunc_id
  let mismatch := allowed ≠ [] ∧ ¬ allowed.contains tagged.magic
  let msg1 := "sf " ++ Nat.repr subfunc_id ++ ": magic mismatch: got \x27"
    ++ tagged.magic ++ "\x27, expected one of " ++ tupleRepr allowed
    ++ " at " ++ hex0x tagged.offset
  if mismatch ∧ strict then .error msg1
  else
    let w1 := if mismatch then warnings ++ [msg1] else warnings
    if tagged.magic = "ARAMODE" then
      let msg2 := "ARAMODE: expected tag 0x00, got " ++ hex0x tagged.tag
        ++ " at " ++ hex0x tagged.offset
      if tagged.tag ≠ 0 ∧ strict then .error msg2
      else if tagged.tag ≠ 0 then .ok (w1 ++ [msg2])
      else .ok w1
    else
      if tagged.tag ≠ 0xFF ∧ tagged.tag ≠ 0 then
        .ok (w1 ++ ["tag unusual: got " ++ hex0x tagged.tag ++ " at "
          ++ hex0x tagged.offset])
      else .ok w1

/-- Subfunction entry of a country/codepage entry. -/
structure SubfuncEntry where
  offset : Nat
  entry_len : Nat
  subfunc_id : Nat
  data_ptr : FarPtr
  tagged : Option Tagged := none
  decoded : Option DecodedVal := none
  deriving Repr, DecidableEq

/-- Country/codepage entry. -/
structure CountryEntry where
  offset : Nat
  header_len : Nat
  country : Nat
  codepage : Nat
  reserved1 : Nat
  reserved2 : Nat
  subfunc_header_ptr : FarPtr
  subfuncs : List SubfuncEntry
  deriving Repr, DecidableEq

/-- Complete parsed COUNTRY.SYS document. -/
structure ParsedCountrySys where
  file_size : Nat
  entry_table_count : Nat
  pointer_info_type : Nat
  entry_table_ptrs : List FarPtr
  entries : List CountryEntry
  warnings : List String
  deriving Repr, DecidableEq

/-- Diagnostic emitted when a subfunction record declares entry length 0
(the source breaks out of the table walk to avoid stalling). -/
def stallMsg (Q sfpos : Nat) : String :=
  "subfunc_header " ++ hex0x Q ++ ": entry_len=0 at " ++ hex0x sfpos
    ++ " (would stall)"

/-- Body of the `for y_i in range(Y)` subfunction-table loop: parse one
subfunction record at `sfpos` (after the length/stall checks) and, when
its id is nonzero and its data pointer is in bounds, its tagged block and
semantic decode. -/
def parseOneSubfunc (buf : List Nat) (strict : Bool)
    (country codepage y_i sfpos entry_len : Nat) (ws : List String) :
    Except String (SubfuncEntry × List String) :=
  let flen := buf.length
  let r0 := decode_far_ptr 0 flen ws ("entry[" ++ Nat.repr country ++ ":"
    ++ Nat.repr codepage ++ "].sf[" ++ Nat.repr y_i ++ "].data_ptr")
  let trip : Nat × FarPtr × List String :=
    if entry_len ≥ 6 then
      let sf_id := readU16 buf (sfpos + 2)
      let u32d := readU32 buf (sfpos + 4)
      let r1 := decode_far_ptr u32d flen r0.2 ("entry[" ++ Nat.repr country
        ++ ":" ++ Nat.repr codepage ++ "].sf[" ++ Nat.repr sf_id ++ "].data_ptr")
      (sf_id, r1.1, r1.2)
    else (0, r0.1, r0.2)
  let sf_id := trip.1
  let dptr := trip.2.1
  let ws2 := trip.2.2
  if sf_id ≠ 0 ∧ dptr.linear < flen then
    let tr := parse_tagged buf dptr.linear ws2 ("sf[" ++ Nat.repr sf_id ++ "]")
    match validate_magic_and_tag sf_id tr.1 tr.2 strict with
    | .error e => .error e
    | .ok ws4 =>
      let decoded : Option DecodedVal :=
        if sf_id = 1 ∧ tr.1.magic = "CTYINFO" then
          some (.cty (decode_ctyinfo tr.1 country))
        else if sf_id = 5 ∧ tr.1.magic = "FCHAR" then
          some (.fchar (decode_fchar tr.1))
        else if sf_id = 7 ∧ tr.1.magic = "DBCS" then
          some (.dbcs (decode_dbcs tr.1))
        else if sf_id = 35 ∧ (tr.1.magic = "YESNO" ∨ tr.1.magic = "ARAMODE") then
          some (.yesno (decode_yesno tr.1))
        else none
      .ok (⟨sfpos, entry_len, sf_id, dptr, some tr.1, decoded⟩, ws4)
  else
    .ok (⟨sfpos, entry_len, sf_id, dptr, none, none⟩, ws2)

/-- The `for y_i in range(Y)` subfunction-table loop of
`parse_country_sys`, recursing on the remaining declared count. -/
def parseSubfuncs (buf : List Nat) (strict : Bool) (country codepage Q : Nat) :
    Nat → Nat → Nat → List String → Except String (List SubfuncEntry × List String)
  | 0, _, _, ws => .ok ([], ws)
  | n + 1, y_i, sfpos, ws =>
    let flen := buf.length
    if sfpos + 2 > flen then
      .ok ([], ws ++ ["subfunc_header " ++ hex0x Q ++ ": truncated"])
    else
      let entry_len := readU16 buf sfpos
      if entry_len = 0 then
        .ok ([], ws ++ [stallMsg Q sfpos])
      else if sfpos + 2 + entry_len > flen then
        .ok ([], ws ++ ["subfunc_header " ++ hex0x Q ++ ": entry beyond EOF at "
          ++ hex0x sfpos])
      else
        match parseOneSubfunc buf strict country codepage y_i sfpos entry_len ws with
        | .error e => .error e
        | .ok sw =>
          match parseSubfuncs buf strict country codepage Q n (y_i + 1)
              (sfpos + 2 + entry_len) sw.2 with
          | .error e => .error e
          | .ok r => .ok (sw.1 :: r.1, r.2)

/-- Body of the `for x_i in range(X)` entry loop (after the length
checks): parse one country/codepage entry at `pos`, including its
subfunction table. -/
def parseOneEntry (buf : List Nat) (strict : Bool)
    (t_i x_i pos header_len : Nat) (ws : List String) :
    Except String (CountryEntry × List String) :=
  let flen := buf.length
  let r0 := decode_far_ptr 0 flen ws ("entry[" ++ Nat.repr x_i
    ++ "].subfunc_header_ptr")
  let six : Nat × Nat × Nat × Nat × FarPtr × List String :=
    if header_len ≥ 12 then
      let country := readU16 buf (pos + 2)
      let codepage := readU16 buf (pos + 4)
      let rq := decode_far_ptr (readU32 buf (pos + 10)) flen r0.2
        ("entry[" ++ Nat.repr country ++ ":" ++ Nat.repr codepage
          ++ "].subfunc_header_ptr")
      (country, codepage, readU16 buf (pos + 6), readU16 buf (pos + 8),
       rq.1, rq.2)
    else
      (0, 0, 0, 0, r0.1, r0.2 ++ ["entry_table[" ++ Nat.repr t_i
        ++ "] entry[" ++ Nat.repr x_i ++ "]: header_len "
        ++ Nat.repr header_len ++ " < 12 (cannot parse fields)"])
  let country := six.1
  let codepage := six.2.1
  let reserved1 := six.2.2.1
  let reserved2 := six.2.2.2.1
  let qptr := six.2.2.2.2.1
  let wsB := six.2.2.2.2.2
  let Q := qptr.linear
  let sfr : Except String (List SubfuncEntry × List String) :=
    if Q + 2 ≤ flen then
      parseSubfuncs buf strict country codepage Q (readU16 buf Q) 0 (Q + 2) wsB
    else .ok ([], wsB)
  match sfr with
  | .error e => .error e
  | .ok r =>
    .ok (⟨pos, header_len, country, codepage, reserved1, reserved2, qptr, r.1⟩,
      r.2)

/-- The `for x_i in range(X)` entry loop of `parse_country_sys` for one
entry table, recursing on the remaining declared count. -/
def parseEntries (buf : List Nat) (strict : Bool) (t_i : Nat) :
    Nat → Nat → Nat → List String → Except String (List CountryEntry × List String)
  | 0, _, _, ws => .ok ([], ws)
  | n + 1, x_i, pos, ws =>
    let flen := buf.length
    if pos + 2 > flen then
      .ok ([], ws ++ ["entry_table[" ++ Nat.repr t_i ++ "] entry["
        ++ Nat.repr x_i ++ "]: truncated"])
    else
      let header_len := readU16 buf pos
      let wsA :=
        if header_len = 0 then
          ws ++ ["entry_table[" ++ Nat.repr t_i ++ "] entry[" ++ Nat.repr x_i
            ++ "]: header_len=0 at " ++ hex0x pos]
        else ws
      if pos + 2 + header_len > flen then
        .ok ([], wsA ++ ["entry_table[" ++ Nat.repr t_i ++ "] entry["
          ++ Nat.repr x_i ++ "]: header extends beyond EOF"])
      else
        match parseOneEntry buf strict t_i x_i pos header_len wsA with
        | .error e => .error e
        | .ok ew =>
          match parseEntries buf strict t_i n (x_i + 1)
              (pos + 2 + header_len) ew.2 with
          | .error er => .error er
          | .ok r2 => .ok (ew.1 :: r2.1, r2.2)

/-- The `for t_i, p in enumerate(ptrs)` entry-table loop of
`parse_country_sys`. -/
def parseTables (buf : List Nat) (strict : Bool) :
    List FarPtr → Nat → List String → Except String (List CountryEntry × List String)
  | [], _, ws => .ok ([], ws)
  | p :: rest, t_i, ws =>
    let flen := buf.length
    if p.linear + 2 > flen then
      parseTables buf strict rest (t_i + 1) (ws ++ ["entry_table["
        ++ Nat.repr t_i ++ "]: offset " ++ hex0x p.linear ++ " beyond EOF"])
    else
      match parseEntries buf strict t_i (readU16 buf p.linear) 0 (p.linear + 2) ws with
      | .error e => .error e
      | .ok r =>
        match parseTables buf strict rest (t_i + 1) r.2 with
        | .error e => .error e
        | .ok r2 => .ok (r.1 ++ r2.1, r2.2)

/-- The header pointer-array loop of `parse_country_sys`. -/
def readPtrArray (buf : List Nat) (flen : Nat) :
    Nat → Nat → List String → List FarPtr × List String
  | 0, _, ws => ([], ws)
  | n + 1, i, ws =>
    if 0x13 + i * 4 + 4 > flen then ([], ws ++ ["pointer array truncated"])
    else
      let r := decode_far_ptr (readU32 buf (0x13 + i * 4)) flen ws
        ("entry_table_ptr[" ++ Nat.repr i ++ "]")
      let rest := readPtrArray buf flen n (i + 1) r.2
      (r.1 :: rest.1, rest.2)

/-- `b"COUNTRY"`. -/
def countryMagic : List Nat := [67, 79, 85, 78, 84, 82, 89]

/-- `parse_country_sys`: main entry point.  Fatal failures are `.error`
(the source raises `ValidationError`); everything else is collected into
the returned document's warnings list. -/
def parse_country_sys (buf : List Nat) (strict : Bool) :
    Except String ParsedCountrySys :=
  let flen := buf.length
  if flen < 0x17 then .error "File too short for COUNTRY.SYS header"
  else if byteAt buf 0 ≠ 0xFF ∨ rstripBytes (slice buf 1 8) [0] ≠ countryMagic then
    .error "Bad signature/magic (expected 0xFF + \x27COUNTRY\x27)"
  else
    let ws0 :=
      if strict ∧ slice buf 8 16 ≠ List.replicate 8 0 then
        ["reserved bytes in file header are not all zero"]
      else []
    let entry_table_count := readU16 buf 0x10
    let pointer_info_type := byteAt buf 0x12
    let pr := readPtrArray buf flen entry_table_count 0 ws0
    match parseTables buf strict pr.1 0 pr.2 with
    | .error e => .error e
    | .ok r =>
      let w3 :=
        if entry_table_count ≠ 1 then
          r.2 ++ ["entry_table_count=" ++ Nat.repr entry_table_count
            ++ " (normally 1); parsed all available pointers"]
        else r.2
      let w4 :=
        if pointer_info_type ≠ 1 then
          w3 ++ ["pointer_info_type=" ++ Nat.repr pointer_info_type
            ++ " (normally 1); continuing anyway"]
        else w3
      .ok ⟨flen, entry_table_count, pointer_info_type, pr.1, r.1, w4⟩

/-- The backward `for i in range(flen-1, -1, -1)` NUL scan of
`find_copyright_and_version`, started at index `flen - 1`. -/
def findZeroFrom (buf : List Nat) : Nat → Option Nat
  | 0 => if byteAt buf 0 = 0 then some 0 else none
  | i + 1 => if byteAt buf (i + 1) = 0 then some (i + 1) else findZeroFrom buf i

/-- The backward `for i in range(zero_pos-1, max(0, zero_pos-1000), -1)`
tagged-structure scan, with the iteration count made explicit (`steps`). -/
def findTagGo (buf : List Nat) (flen zero_pos : Nat) : Nat → Nat → Option Nat
  | _, 0 => none
  | i, steps + 1 =>
    if byteAt buf i = 0xFF ∧ i + 10 ≤ flen ∧ i + 10 < zero_pos then some i
    else findTagGo buf flen zero_pos (i - 1) steps

/-- Result of `find_copyright_and_version`. -/
structure CopyrightInfo where
  copyright : String
  version : Option String := none
  deriving Repr, DecidableEq

/-- `find_copyright_and_version`: backward scan for a NUL byte, then for a
tagged structure before it; the bytes after the NUL are the copyright
string, and a VERSION tagged block of size 4 yields a version string. -/
def find_copyright_and_version (buf : List Nat) : Option CopyrightInfo :=
  let flen := buf.length
  if flen < 10 then none
  else
    match findZeroFrom buf (flen - 1) with
    | none => none
    | some zero_pos =>
      match findTagGo buf flen zero_pos (zero_pos - 1)
          ((zero_pos - 1) - (zero_pos - 1000)) with
      | none => none
      | some tagged_start =>
        let copyright_str := rstripChars
          (decodeAsciiReplace (buf.drop (zero_pos + 1)))
          [Char.ofNat 0, Char.ofNat 32, Char.ofNat 13, Char.ofNat 10]
        let magic := decodeAsciiReplace
          (rstripBytes (slice buf (tagged_start + 1) (tagged_start + 8)) [32, 0])
        let size := readU16 buf (tagged_start + 8)
        let version :=
          if magic = "VERSION" ∧ size = 4 ∧ tagged_start + 10 + 4 ≤ flen then
            some (rstripChars (decodeAsciiReplace
                (slice buf (tagged_start + 10) (tagged_start + 12))) [Char.ofNat 0]
              ++ "." ++ rstripChars (decodeAsciiReplace
                (slice buf (tagged_start + 12) (tagged_start + 14))) [Char.ofNat 0])
          else none
        some ⟨copyright_str, version⟩

/-- Whether a value has exactly the width a field type declares (the
round-trip claim quantifies over such assignments). -/
def fitsTy : FTy → FieldVal → Bool
  | .u8, .nat n => n < 256
  | .u16, .nat n => n < 65536
  | .u32, .nat n => n < 4294967296
  | .str k, .bytes bs => bs.length = k
  | _, _ => false

/-- Little-endian packing of one field value (the inverse direction of
`unpackAt`, following `struct.pack` semantics for `B`/`H`/`I`/`ns`). -/
def packVal : FTy → FieldVal → List Nat
  | .u8, .nat n => [n % 256]
  | .u16, .nat n => [n % 256, n / 256 % 256]
  | .u32, .nat n => [n % 256, n / 256 % 256, n / 65536 % 256, n / 16777216 % 256]
  | .str k, .bytes bs => bs.take k ++ List.replicate (k - bs.length) 0
  | _, _ => []

/-- Packing a whole record in schema order. -/
def packFields : List Field → List FieldVal → List Nat
  | f :: fs, v :: vs => packVal f.ty v ++ packFields fs vs
  | _, _ => []

/-- Position of the next subfunction record after the one at `p`. -/
def stepPos (buf : List Nat) (p : Nat) : Nat := p + 2 + readU16 buf p

/-- Position of the `k`-th subfunction record starting from `p`. -/
def posAfter (buf : List Nat) : Nat → Nat → Nat
  | 0, p => p
  | k + 1, p => posAfter buf k (stepPos buf p)

/-- `k` consecutive subfunction records from `p` are all readable with a
nonzero declared entry length that stays inside the buffer. -/
def goodRun (buf : List Nat) : Nat → Nat → Bool
  | 0, _ => true
  | k + 1, p =>
    decide (p + 2 ≤ buf.length) && decide (readU16 buf p ≠ 0)
      && decide (p + 2 + readU16 buf p ≤ buf.length)
      && goodRun buf k (stepPos buf p)

/-- A two-field schema used to exercise the round trip concretely. -/
def rtSchema : List Field := [⟨"a", .u16, .nat 0⟩, ⟨"s", .str 2, .bytes []⟩]

/-- A concrete assignment of the declared widths for `rtSchema`. -/
def rtVals : List FieldVal := [.nat 0x1234, .bytes [65, 66]]

/-- A 1013-byte buffer whose final 1000 bytes contain no NUL: one NUL at
index 12, preceded by a 0xFF byte at index 1 whose 10-byte header ends
before the NUL. -/
def noTrailingNulBuf : List Nat :=
  ([0x41, 0xFF] ++ (List.replicate 10 0x41 ++ [0x00])) ++ List.replicate 1000 0x41

/-!  Theorems -/

/-- On every branch, `decode_far_ptr` resolves `linear` to the low 16 bits
of the raw value. -/
lemma decode_far_ptr_linear_eq (u32 file_len : Nat)
    (ws : List String) (ctx : String) :
    ((decode_far_ptr u32 file_len ws ctx).1).linear = u32 % 4294967296 % 65536 := by
  unfold decode_far_ptr
  by_cases hseg : u32 % 4294967296 / 65536 % 65536 = 0 <;>
    simp only [hseg, if_true, if_false, ite_true, ite_false, reduceIte] <;>
    split_ifs with h1 h2 <;> simp_all <;> omega

/-- The non-`linear` fields of the returned `FarPtr` are the plain
segment/offset split of the raw value. -/
lemma decode_far_ptr_components (u32 file_len : Nat)
    (ws : List String) (ctx : String) :
    ((decode_far_ptr u32 file_len ws ctx).1).raw_u32 = u32 % 4294967296 ∧
    ((decode_far_ptr u32 file_len ws ctx).1).seg = u32 % 4294967296 / 65536 % 65536 ∧
    ((decode_far_ptr u32 file_len ws ctx).1).off = u32 % 4294967296 % 65536 :=
  ⟨rfl, rfl, rfl⟩

/-- C10: For every 32-bit raw pointer value and every buffer length, the
`FarPtr` returned by `decode_far_ptr` has `linear` equal to the low 16
bits of the raw value (`raw & 0xFFFF`): the segment portion never affects
the resolved linear address, whether or not the segment-based address
would be in bounds. -/
theorem decode_far_ptr_linear_always_low16 (u32 file_len : Nat)
    (ws : List String) (ctx : String) :
    ((decode_far_ptr u32 file_len ws ctx).1).linear = u32 % 4294967296 % 65536 :=
  decode_far_ptr_linear_eq u32 file_len ws ctx

/-- C4: `decode_far_ptr` is total — for every raw input and buffer length
it returns a `FarPtr` plus warnings (it never fails) — and whenever the
decoded segment is zero, the resolved linear address equals the low 16
bits of the raw value exactly. -/
theorem decode_far_ptr_total_and_seg0 (u32 file_len : Nat)
    (ws : List String) (ctx : String) :
    (∃ p w, decode_far_ptr u32 file_len ws ctx = (p, w)) ∧
    (((decode_far_ptr u32 file_len ws ctx).1).seg = 0 →
      ((decode_far_ptr u32 file_len ws ctx).1).linear = u32 % 4294967296 % 65536) :=
  ⟨⟨_, _, rfl⟩, fun _ => decode_far_ptr_linear_eq u32 file_len ws ctx⟩

/-- C4 witness: concrete seg-0 instance (raw `0x1234`, buffer length 100). -/
theorem decode_far_ptr_total_and_seg0_witness :
    ((decode_far_ptr 0x1234 100 [] "w").1).linear = 0x1234 % 4294967296 % 65536 :=
  (decode_far_ptr_total_and_seg0 0x1234 100 [] "w").2 (by decide)

/-- C3: evaluation at the failing input `raw = 0x00010000` (segment 1,
offset 0) with buffer length 100.  The segment-based address
`seg*16 + off = 16` is in bounds, yet the code resolves `linear` to the
low 16 bits (0), because the chained comparison `linear != off != raw`
holds for every nonzero segment.  This contradicts the function's own
docstring ("Linear address is seg*16+off", fallback only beyond EOF). -/
theorem decode_far_ptr_inbounds_segment_dropped :
    ((decode_far_ptr 0x00010000 100 [] "ctx").1).linear = 0 ∧
    ((decode_far_ptr 0x00010000 100 [] "ctx").1).seg * 16
      + ((decode_far_ptr 0x00010000 100 [] "ctx").1).off = 16 := by
  decide

/-- Once a field does not fit, every later field at least as wide as it
receives its declared default (the cursor never moves backwards, so no
such field can fit either). -/
lemma tokenFitGo_wide_fields_default (sz0 : Nat) :
    ∀ (fields : List Field) (data : List Nat) (pos : Nat),
      data.length < pos + sz0 →
      ∀ k g, fields.get? k = some g → sz0 ≤ g.ty.size →
        ((tokenFitGo data pos fields).1).get? k = some (g.name, g.default) := by
  intro fields
  induction fields with
  | nil => intro data pos _ k g hk; simp at hk
  | cons f rest ih =>
    intro data pos hlen k g hk hsz
    match k with
    | 0 =>
      simp only [List.get?_cons_zero, Option.some.injEq] at hk
      subst hk
      have hnofit : ¬ (pos + f.ty.size ≤ data.length) := by omega
      simp only [tokenFitGo, if_neg hnofit, List.get?_cons_zero]
    | k + 1 =>
      simp only [List.get?_cons_succ] at hk
      by_cases hfit : pos + f.ty.size ≤ data.length
      · simp only [tokenFitGo, if_pos hfit, List.get?_cons_succ]
        exact ih data (pos + f.ty.size) (by omega) k g hk hsz
      · simp only [tokenFitGo, if_neg hfit, List.get?_cons_succ]
        exact ih data pos hlen k g hk hsz

/-- C2 (amended): once some schema field cannot be decoded because the
remaining payload past the cursor is shorter than that field's width,
that field receives its declared default, and every subsequent field at
least as wide as it also receives its declared default; a strictly
narrower later field may still be decoded (see the counterexample). -/
theorem token_fit_stall_defaults_wide_fields (data : List Nat) (pos : Nat)
    (f : Field) (rest : List Field) (hlen : data.length < pos + f.ty.size) :
    ((tokenFitGo data pos (f :: rest)).1).head? = some (f.name, f.default) ∧
    ∀ k g, rest.get? k = some g → f.ty.size ≤ g.ty.size →
      ((tokenFitGo data pos (f :: rest)).1).get? (k + 1) = some (g.name, g.default) := by
  constructor
  · have hnofit : ¬ (pos + f.ty.size ≤ data.length) := by omega
    simp only [tokenFitGo, if_neg hnofit, List.head?_cons]
  · intro k g hk hsz
    exact tokenFitGo_wide_fields_default f.ty.size (f :: rest) data pos hlen
      (k + 1) g (by simpa using hk) hsz

/-- C2 witness: payload `[1,2,3]`, schema `u32 a` (default 0) then
`u8 b` (default 9), with a third `u32 c`: `a` does not fit, and the
equally-or-wider `c` gets its default. -/
theorem token_fit_stall_defaults_wide_fields_witness :
    (((tokenFitGo [1, 2, 3] 0
        [⟨"a", .u32, .nat 0⟩, ⟨"b", .u8, .nat 9⟩, ⟨"c", .u32, .nat 7⟩]).1).head?
      = some ("a", .nat 0)) ∧
    (((tokenFitGo [1, 2, 3] 0
        [⟨"a", .u32, .nat 0⟩, ⟨"b", .u8, .nat 9⟩, ⟨"c", .u32, .nat 7⟩]).1).get? 2
      = some ("c", .nat 7)) :=
  ⟨(token_fit_stall_defaults_wide_fields [1, 2, 3] 0 ⟨"a", .u32, .nat 0⟩
      [⟨"b", .u8, .nat 9⟩, ⟨"c", .u32, .nat 7⟩] (by decide)).1,
   (token_fit_stall_defaults_wide_fields [1, 2, 3] 0 ⟨"a", .u32, .nat 0⟩
      [⟨"b", .u8, .nat 9⟩, ⟨"c", .u32, .nat 7⟩] (by decide)).2 1
      ⟨"c", .u32, .nat 7⟩ (by decide) (by decide)⟩

/-- C2 counterexample: with payload `[1,2,3]` and schema
`[("a", u32, default 0), ("b", u8, default 9)]` the field `a` does not
fit, yet the narrower later field `b` is decoded from payload byte `1`
instead of receiving its declared default 9 — refuting the claim that all
fields after the first non-fitting one receive their defaults. -/
theorem token_fit_narrower_field_decoded_after_fail :
    (token_fit_unpack [1, 2, 3]
        [⟨"a", .u32, .nat 0⟩, ⟨"b", .u8, .nat 9⟩]).fields
      = [("a", .nat 0), ("b", .nat 1)] ∧
    ((token_fit_unpack [1, 2, 3]
        [⟨"a", .u32, .nat 0⟩, ⟨"b", .u8, .nat 9⟩]).fields).get? 1
      ≠ some ("b", .nat 9) := by
  decide

lemma byteAt_append_right (pre l : List Nat) (i : Nat) :
    byteAt (pre ++ l) (pre.length + i) = byteAt l i := by
  simp only [byteAt]
  rw [List.getD_append_right pre l 0 (pre.length + i) (by omega)]
  congr 1
  omega

lemma packVal_length (ty : FTy) (v : FieldVal) (h : fitsTy ty v = true) :
    (packVal ty v).length = ty.size := by
  cases ty <;> cases v <;> simp_all [packVal, fitsTy, FTy.size]

lemma slice_append_exact (pre mid rest : List Nat) :
    slice (pre ++ (mid ++ rest)) pre.length (pre.length + mid.length) = mid := by
  simp only [slice]
  rw [show pre.length + mid.length - pre.length = mid.length by omega,
    List.drop_left, List.take_left]

lemma unpackAt_append_pack (pre rest : List Nat) (ty : FTy) (v : FieldVal)
    (h : fitsTy ty v = true) :
    unpackAt (pre ++ (packVal ty v ++ rest)) ty pre.length = v := by
  cases ty with
  | u8 =>
    cases v with
    | nat n =>
      have h1 : byteAt (pre ++ (packVal .u8 (.nat n) ++ rest)) (pre.length + 0)
          = byteAt (packVal .u8 (.nat n) ++ rest) 0 := byteAt_append_right ..
      simp only [fitsTy, decide_eq_true_eq] at h
      simp only [unpackAt, Nat.add_zero] at h1 ⊢
      rw [h1]
      simp [packVal, byteAt]
      omega
    | bytes bs => simp [fitsTy] at h
  | u16 =>
    cases v with
    | nat n =>
      have h1 := byteAt_append_right pre (packVal .u16 (.nat n) ++ rest) 0
      have h2 := byteAt_append_right pre (packVal .u16 (.nat n) ++ rest) 1
      simp only [fitsTy, decide_eq_true_eq] at h
      simp only [unpackAt, readU16, Nat.add_zero] at h1 ⊢
      rw [h1, h2]
      simp [packVal, byteAt]
      omega
    | bytes bs => simp [fitsTy] at h
  | u32 =>
    cases v with
    | nat n =>
      have h1 := byteAt_append_right pre (packVal .u32 (.nat n) ++ rest) 0
      have h2 := byteAt_append_right pre (packVal .u32 (.nat n) ++ rest) 1
      have h3 := byteAt_append_right pre (packVal .u32 (.nat n) ++ rest) 2
      have h4 := byteAt_append_right pre (packVal .u32 (.nat n) ++ rest) 3
      simp only [fitsTy, decide_eq_true_eq] at h
      simp only [unpackAt, readU32, Nat.add_zero] at h1 ⊢
      rw [h1, h2, h3, h4]
      simp [packVal, byteAt]
      omega
    | bytes bs => simp [fitsTy] at h
  | str k =>
    cases v with
    | nat n => simp [fitsTy] at h
    | bytes bs =>
      simp only [fitsTy, decide_eq_true_eq] at h
      have hpv : packVal (.str k) (.bytes bs) = bs := by
        simp [packVal, h, List.take_of_length_le (Nat.le_of_eq h)]
      have := slice_append_exact pre bs rest
      simp only [unpackAt, FTy.size, hpv, FieldVal.bytes.injEq]
      rw [show pre.length + k = pre.length + bs.length by omega]
      exact this

lemma tokenFitGo_pack :
    ∀ (schema : List Field) (vals : List FieldVal) (pre : List Nat),
      vals.length = schema.length →
      (∀ k f v, schema.get? k = some f → vals.get? k = some v →
        fitsTy f.ty v = true) →
      tokenFitGo (pre ++ packFields schema vals) pre.length schema =
        (List.zipWith (fun f v => (f.name, v)) schema vals,
         pre.length + (packFields schema vals).length) := by
  intro schema
  induction schema with
  | nil =>
    intro vals pre hlen _
    match vals with
    | [] => simp [packFields, tokenFitGo]
  | cons f rest ih =>
    intro vals pre hlen hfit
    match vals with
    | v :: vs =>
      have hfit0 : fitsTy f.ty v = true := hfit 0 f v rfl rfl
      have hlen' : vs.length = rest.length := by simpa using hlen
      have hpv : (packVal f.ty v).length = f.ty.size := packVal_length _ _ hfit0
      have hfit' : ∀ k g w, rest.get? k = some g → vs.get? k = some w →
          fitsTy g.ty w = true := fun k g w hk hw => hfit (k + 1) g w hk hw
      have hcond : pre.length + f.ty.size
          ≤ (pre ++ packFields (f :: rest) (v :: vs)).length := by
        simp [packFields, List.length_append, hpv]
      have hrec := ih vs (pre ++ packVal f.ty v) hlen' hfit'
      rw [List.append_assoc] at hrec
      simp only [List.length_append, hpv] at hrec
      simp only [packFields, List.length_append, tokenFitGo,
        unpackAt_append_pack pre (packFields rest vs) f.ty v hfit0, hrec,
        List.zipWith_cons_cons]
      rw [if_pos (show pre.length + f.ty.size
        ≤ pre.length + ((packVal f.ty v).length + (packFields rest vs).length)
        by omega)]
      simp only [Prod.mk.injEq, true_and]
      omega

/-- C8: round-trip of the tolerant unpacker — packing an assignment of
values of the declared widths little-endian in schema order and decoding
the result with `token_fit_unpack` reproduces every field value, consumes
exactly the packed size, and leaves no extra bytes. -/
theorem token_fit_roundtrip (schema : List Field) (vals : List FieldVal)
    (hlen : vals.length = schema.length)
    (hfit : ∀ k f v, schema.get? k = some f → vals.get? k = some v →
      fitsTy f.ty v = true) :
    token_fit_unpack (packFields schema vals) schema =
      ⟨List.zipWith (fun f v => (f.name, v)) schema vals,
       (packFields schema vals).length, []⟩ := by
  have h := tokenFitGo_pack schema vals [] hlen hfit
  simp only [List.nil_append, List.length_nil, Nat.zero_add] at h
  simp only [token_fit_unpack, h, List.drop_length]

/-- C8 witness: schema `u16 a` then `2s s`, values `0x1234` and `"AB"`. -/
theorem token_fit_roundtrip_witness :
    token_fit_unpack (packFields rtSchema rtVals) rtSchema
      = ⟨List.zipWith (fun f v => (f.name, v)) rtSchema rtVals,
         (packFields rtSchema rtVals).length, []⟩ :=
  token_fit_roundtrip rtSchema rtVals (by decide)
    (by
      intro k f v hk hv
      match k with
      | 0 =>
        simp only [rtSchema, rtVals, List.get?_cons_zero,
          Option.some.injEq] at hk hv
        subst hk; subst hv; decide
      | 1 =>
        simp only [rtSchema, rtVals, List.get?_cons_succ, List.get?_cons_zero,
          Option.some.injEq] at hk hv
        subst hk; subst hv; decide
      | k + 2 => simp [rtSchema] at hk)

/-- C5: `parse_tagged` tolerates truncation.  With at least 10 header
bytes available but a declared payload running past end-of-file, it
appends a diagnostic and returns exactly the bytes from `off+10` to
end-of-file as payload; with fewer than 10 bytes available it appends a
diagnostic and returns a zeroed block.  (Both paths are total: the
embedding reads only through the clamped `slice`.) -/
theorem parse_tagged_truncation_tolerant (buf : List Nat) (off : Nat)
    (ws : List String) (ctx : String) :
    (off + 10 ≤ buf.length → buf.length < off + 10 + readU16 buf (off + 8) →
      ((parse_tagged buf off ws ctx).1).payload = slice buf (off + 10) buf.length ∧
      (parse_tagged buf off ws ctx).2
        = ws ++ [ctx ++ ": payload truncated (wanted "
            ++ Nat.repr (readU16 buf (off + 8)) ++ " bytes) at " ++ hex0x off]) ∧
    (buf.length < off + 10 →
      (parse_tagged buf off ws ctx).1 = ⟨off, 0, [], "", 0, [], none⟩ ∧
      (parse_tagged buf off ws ctx).2
        = ws ++ [ctx ++ ": tagged header truncated at " ++ hex0x off]) := by
  constructor
  · intro h1 h2
    simp only [parse_tagged]
    rw [if_neg (show ¬ (off + 10 > buf.length) by omega)]
    simp only
    rw [if_pos (show off + 10 + readU16 buf (off + 8) > buf.length by omega),
      if_pos (show off + 10 + readU16 buf (off + 8) > buf.length by omega)]
    exact ⟨rfl, rfl⟩
  · intro h1
    simp only [parse_tagged]
    rw [if_pos (show off + 10 > buf.length by omega)]
    exact ⟨rfl, rfl⟩

/-- C5 witness: a 12-byte CTYINFO block declaring 5 payload bytes with
only 2 available, and a 3-byte buffer with no room for a header. -/
theorem parse_tagged_truncation_tolerant_witness :
    (((parse_tagged [0xFF, 67, 84, 89, 73, 78, 70, 79, 5, 0, 1, 2] 0 [] "c").1).payload
        = slice [0xFF, 67, 84, 89, 73, 78, 70, 79, 5, 0, 1, 2] 10 12 ∧
      (parse_tagged [0xFF, 67, 84, 89, 73, 78, 70, 79, 5, 0, 1, 2] 0 [] "c").2
        = [] ++ ["c" ++ ": payload truncated (wanted "
            ++ Nat.repr (readU16 [0xFF, 67, 84, 89, 73, 78, 70, 79, 5, 0, 1, 2] 8)
            ++ " bytes) at " ++ hex0x 0]) ∧
    ((parse_tagged [1, 2, 3] 0 [] "c").1 = ⟨0, 0, [], "", 0, [], none⟩ ∧
      (parse_tagged [1, 2, 3] 0 [] "c").2
        = [] ++ ["c" ++ ": tagged header truncated at " ++ hex0x 0]) :=
  ⟨(parse_tagged_truncation_tolerant
      [0xFF, 67, 84, 89, 73, 78, 70, 79, 5, 0, 1, 2] 0 [] "c").1
      (by decide) (by decide),
   (parse_tagged_truncation_tolerant [1, 2, 3] 0 [] "c").2 (by decide)⟩

/-- C9: decoding a YESNO tagged block with payload bytes
`0x59 0x30 0x4E 0x00` yields a `yes` value carrying the mis-encoding note
(second byte is ASCII digit zero) and a `no` value equal to `"N"`. -/
theorem decode_yesno_misencoded_zero_flag :
    decode_yesno ⟨0, 0xFF, [89, 69, 83, 78, 79, 0, 0], "YESNO", 4,
        [0x59, 0x30, 0x4E, 0x00], none⟩
      = ⟨"Y0" ++ misEncodedZeroNote 0x59, "N", "0x59 0x30 0x4E 0x00"⟩ := by
  decide

/-- With strict mode off, the magic/tag consistency check only warns. -/
lemma validate_magic_and_tag_ok (id : Nat) (t : Tagged) (ws : List String) :
    ∃ w, validate_magic_and_tag id t ws false = .ok w := by
  unfold validate_magic_and_tag
  split_ifs <;> first
    | exact ⟨_, rfl⟩
    | (simp_all
       split_ifs <;> exact ⟨_, rfl⟩)

/-- With strict mode off, parsing one subfunction record never fails. -/
lemma parseOneSubfunc_ok (buf : List Nat)
    (country codepage y_i sfpos entry_len : Nat) (ws : List String) :
    ∃ sw, parseOneSubfunc buf false country codepage y_i sfpos entry_len ws
      = .ok sw := by
  simp only [parseOneSubfunc]
  split_ifs
  all_goals first
    | exact ⟨_, rfl⟩
    | (obtain ⟨w, hw⟩ := validate_magic_and_tag_ok _ _ _
       rw [hw]
       exact ⟨_, rfl⟩)

/-- One-step unfolding of the subfunction-table loop. -/
lemma parseSubfuncs_succ (buf : List Nat) (strict : Bool)
    (country codepage Q n y_i sfpos : Nat) (ws : List String) :
    parseSubfuncs buf strict country codepage Q (n + 1) y_i sfpos ws
      = if sfpos + 2 > buf.length then
          .ok ([], ws ++ ["subfunc_header " ++ hex0x Q ++ ": truncated"])
        else if readU16 buf sfpos = 0 then
          .ok ([], ws ++ [stallMsg Q sfpos])
        else if sfpos + 2 + readU16 buf sfpos > buf.length then
          .ok ([], ws ++ ["subfunc_header " ++ hex0x Q ++ ": entry beyond EOF at "
            ++ hex0x sfpos])
        else
          match parseOneSubfunc buf strict country codepage y_i sfpos
              (readU16 buf sfpos) ws with
          | .error e => .error e
          | .ok sw =>
            match parseSubfuncs buf strict country codepage Q n (y_i + 1)
                (sfpos + 2 + readU16 buf sfpos) sw.2 with
            | .error e => .error e
            | .ok r => .ok (sw.1 :: r.1, r.2) := rfl

/-- C6: if, after `k` well-formed subfunction records, the next record's
declared entry length reads as zero, the table walk appends the stall
diagnostic as its last warning and returns exactly the `k` records already
parsed — no matter how many more records (`n`) the table declares.  The
result is `.ok`, so the caller keeps the records and the walk of other
entries continues. -/
theorem parseSubfuncs_stops_at_zero_entry_len
    (buf : List Nat) (country codepage Q : Nat) (k : Nat) :
    ∀ (n y_i sfpos : Nat) (ws : List String),
      goodRun buf k sfpos = true →
      posAfter buf k sfpos + 2 ≤ buf.length →
      readU16 buf (posAfter buf k sfpos) = 0 →
      ∃ recs ws',
        parseSubfuncs buf false country codepage Q (k + n + 1) y_i sfpos ws
          = .ok (recs, ws' ++ [stallMsg Q (posAfter buf k sfpos)])
        ∧ recs.length = k := by
  induction k with
  | zero =>
    intro n y_i sfpos ws _ hlen h0
    simp only [posAfter] at hlen h0 ⊢
    rw [Nat.zero_add]
    refine ⟨[], ws, ?_, rfl⟩
    rw [parseSubfuncs_succ, if_neg (show ¬ (sfpos + 2 > buf.length) by omega),
      if_pos h0]
  | succ k ih =>
    intro n y_i sfpos ws hrun hlen h0
    simp only [goodRun, Bool.and_eq_true, decide_eq_true_eq] at hrun
    obtain ⟨⟨⟨h2, hnz⟩, hfit⟩, hrest⟩ := hrun
    simp only [posAfter] at hlen h0 ⊢
    rw [show k + 1 + n + 1 = (k + n + 1) + 1 by omega]
    rw [parseSubfuncs_succ, if_neg (show ¬ (sfpos + 2 > buf.length) by omega),
      if_neg hnz,
      if_neg (show ¬ (sfpos + 2 + readU16 buf sfpos > buf.length) by omega)]
    obtain ⟨sw, hsw⟩ := parseOneSubfunc_ok buf country codepage y_i sfpos
      (readU16 buf sfpos) ws
    obtain ⟨recs, ws', hrec, hlen'⟩ := ih n (y_i + 1) (stepPos buf sfpos) sw.2
      hrest hlen h0
    simp only [stepPos] at hrec
    simp only [hsw, hrec]
    exact ⟨sw.1 :: recs, ws', rfl, by simp [hlen']⟩

/-- With strict mode off, the subfunction-table walk never fails. -/
lemma parseSubfuncs_ok (buf : List Nat) (country codepage Q : Nat) :
    ∀ (n y sfpos : Nat) (ws : List String),
      ∃ r, parseSubfuncs buf false country codepage Q n y sfpos ws = .ok r := by
  intro n
  induction n with
  | zero => intro y sfpos ws; exact ⟨_, rfl⟩
  | succ n ih =>
    intro y sfpos ws
    rw [parseSubfuncs_succ]
    split_ifs
    · exact ⟨_, rfl⟩
    · exact ⟨_, rfl⟩
    · exact ⟨_, rfl⟩
    · obtain ⟨sw, hsw⟩ := parseOneSubfunc_ok buf country codepage y sfpos
        (readU16 buf sfpos) ws
      obtain ⟨r, hr⟩ := ih (y + 1) (sfpos + 2 + readU16 buf sfpos) sw.2
      simp only [hsw, hr]
      exact ⟨_, rfl⟩

/-- With strict mode off, parsing one country/codepage entry never fails. -/
lemma parseOneEntry_ok (buf : List Nat) (t_i x_i pos header_len : Nat)
    (ws : List String) :
    ∃ ew, parseOneEntry buf false t_i x_i pos header_len ws = .ok ew := by
  simp only [parseOneEntry]
  split_ifs
  all_goals first
    | exact ⟨_, rfl⟩
    | (obtain ⟨r, hr⟩ := parseSubfuncs_ok buf _ _ _ _ _ _ _
       rw [hr]
       exact ⟨_, rfl⟩)

/-- One-step unfolding of the entry loop. -/
lemma parseEntries_succ (buf : List Nat) (strict : Bool)
    (t_i n x_i pos : Nat) (ws : List String) :
    parseEntries buf strict t_i (n + 1) x_i pos ws
      = if pos + 2 > buf.length then
          .ok ([], ws ++ ["entry_table[" ++ Nat.repr t_i ++ "] entry["
            ++ Nat.repr x_i ++ "]: truncated"])
        else
          let wsA :=
            if readU16 buf pos = 0 then
              ws ++ ["entry_table[" ++ Nat.repr t_i ++ "] entry[" ++ Nat.repr x_i
                ++ "]: header_len=0 at " ++ hex0x pos]
            else ws
          if pos + 2 + readU16 buf pos > buf.length then
            .ok ([], wsA ++ ["entry_table[" ++ Nat.repr t_i ++ "] entry["
              ++ Nat.repr x_i ++ "]: header extends beyond EOF"])
          else
            match parseOneEntry buf strict t_i x_i pos (readU16 buf pos) wsA with
            | .error e => .error e
            | .ok ew =>
              match parseEntries buf strict t_i n (x_i + 1)
                  (pos + 2 + readU16 buf pos) ew.2 with
              | .error er => .error er
              | .ok r2 => .ok (ew.1 :: r2.1, r2.2) := rfl

/-- With strict mode off, the entry loop never fails. -/
lemma parseEntries_ok (buf : List Nat) (t_i : Nat) :
    ∀ (n x pos : Nat) (ws : List String),
      ∃ r, parseEntries buf false t_i n x pos ws = .ok r := by
  intro n
  induction n with
  | zero => intro x pos ws; exact ⟨_, rfl⟩
  | succ n ih =>
    intro x pos ws
    rw [parseEntries_succ]
    split_ifs
    · exact ⟨_, rfl⟩
    · exact ⟨_, rfl⟩
    · obtain ⟨ew, hew⟩ := parseOneEntry_ok buf t_i x pos (readU16 buf pos)
        (ws ++ ["entry_table[" ++ Nat.repr t_i ++ "] entry[" ++ Nat.repr x
          ++ "]: header_len=0 at " ++ hex0x pos])
      obtain ⟨r, hr⟩ := ih (x + 1) (pos + 2 + readU16 buf pos) ew.2
      simp only [hew, hr]
      exact ⟨_, rfl⟩
    · exact ⟨_, rfl⟩
    · obtain ⟨ew, hew⟩ := parseOneEntry_ok buf t_i x pos (readU16 buf pos) ws
      obtain ⟨r, hr⟩ := ih (x + 1) (pos + 2 + readU16 buf pos) ew.2
      simp only [hew, hr]
      exact ⟨_, rfl⟩

/-- With strict mode off, the entry-table loop never fails. -/
lemma parseTables_ok (buf : List Nat) :
    ∀ (ptrs : List FarPtr) (t_i : Nat) (ws : List String),
      ∃ r, parseTables buf false ptrs t_i ws = .ok r := by
  intro ptrs
  induction ptrs with
  | nil => intro t_i ws; exact ⟨_, rfl⟩
  | cons p rest ih =>
    intro t_i ws
    simp only [parseTables]
    split_ifs
    · exact ih (t_i + 1) _
    · obtain ⟨r, hr⟩ := parseEntries_ok buf t_i (readU16 buf p.linear) 0
        (p.linear + 2) ws
      obtain ⟨r2, hr2⟩ := ih (t_i + 1) r.2
      simp only [hr, hr2]
      exact ⟨_, rfl⟩

/-- C1: with strict mode off, `parse_country_sys` fails (raises) exactly
when the buffer is shorter than the fixed 0x17-byte header region, or its
first byte is not 0xFF, or bytes 1-7 with trailing NULs stripped are not
the ASCII literal COUNTRY; every other buffer yields a document, with all
anomalies recorded only in its warnings list. -/
theorem parse_country_sys_fatal_iff (buf : List Nat) :
    (∃ e, parse_country_sys buf false = .error e) ↔
      (buf.length < 0x17 ∨ byteAt buf 0 ≠ 0xFF
        ∨ rstripBytes (slice buf 1 8) [0] ≠ countryMagic) := by
  by_cases h1 : buf.length < 0x17
  · simp only [parse_country_sys, if_pos h1]
    simp [h1]
  · by_cases h2 : byteAt buf 0 ≠ 0xFF ∨ rstripBytes (slice buf 1 8) [0] ≠ countryMagic
    · simp only [parse_country_sys, if_neg h1, if_pos h2]
      exact ⟨fun _ => Or.inr h2, fun _ => ⟨_, rfl⟩⟩
    · simp only [parse_country_sys, if_neg h1, if_neg h2]
      simp only [Bool.false_eq_true, false_and, if_false]
      obtain ⟨r, hr⟩ := parseTables_ok buf
        (readPtrArray buf buf.length (readU16 buf 0x10) 0 []).1 0
        (readPtrArray buf buf.length (readU16 buf 0x10) 0 []).2
      simp only [hr]
      push_neg at h2
      obtain ⟨h2a, h2b⟩ := h2
      simp [h1, h2a, h2b]

/-- C1 witness: the empty buffer is fatally rejected; the minimal valid
25-byte file (header plus an empty entry table) parses to a document. -/
theorem parse_country_sys_fatal_iff_witness :
    (∃ e, parse_country_sys [] false = .error e) ∧
    ¬ (∃ e, parse_country_sys
        [0xFF, 67, 79, 85, 78, 84, 82, 89, 0, 0, 0, 0, 0, 0, 0, 0,
         1, 0, 1, 0x17, 0, 0, 0, 0, 0] false = .error e) :=
  ⟨(parse_country_sys_fatal_iff []).mpr (Or.inl (by decide)),
   fun h => by
    have := (parse_country_sys_fatal_iff
      [0xFF, 67, 79, 85, 78, 84, 82, 89, 0, 0, 0, 0, 0, 0, 0, 0,
       1, 0, 1, 0x17, 0, 0, 0, 0, 0]).mp h
    revert this
    decide⟩

/-- C6 witness: a table with one good 6-byte record followed by a record
whose declared entry length is zero; with three more records declared, the
walk still returns exactly one record and the stall diagnostic. -/
theorem parseSubfuncs_stops_at_zero_entry_len_witness :
    ∃ recs ws',
      parseSubfuncs [6, 0, 2, 0, 50, 0, 0, 0, 0, 0] false 1 437 0 (1 + 3 + 1) 0 0 []
        = .ok (recs, ws' ++ [stallMsg 0 (posAfter [6, 0, 2, 0, 50, 0, 0, 0, 0, 0] 1 0)])
      ∧ recs.length = 1 :=
  parseSubfuncs_stops_at_zero_entry_len [6, 0, 2, 0, 50, 0, 0, 0, 0, 0] 1 437 0 1
    3 0 0 [] (by decide) (by decide) (by decide)

/-- The backward NUL scan skips over a run of nonzero bytes. -/
lemma findZeroFrom_skip (buf : List Nat) (i : Nat) :
    ∀ m, (∀ t, i < t → t ≤ i + m → byteAt buf t ≠ 0) →
      findZeroFrom buf (i + m) = findZeroFrom buf i := by
  intro m
  induction m with
  | zero => intro _; rfl
  | succ m ih =>
    intro h
    have hne : byteAt buf (i + m + 1) ≠ 0 := h (i + m + 1) (by omega) (by omega)
    show findZeroFrom buf (i + m + 1) = findZeroFrom buf i
    simp only [findZeroFrom, if_neg hne]
    exact ih (fun t h1 h2 => h t h1 (by omega))

lemma noTrailingNulBuf_length : noTrailingNulBuf.length = 1013 := by
  rw [noTrailingNulBuf]
  simp only [List.length_append, List.length_replicate, List.length_cons,
    List.length_nil]

lemma getD_replicate_of_lt (a d : Nat) : ∀ n i, i < n →
    (List.replicate n a).getD i d = a := by
  intro n
  induction n with
  | zero => intro i h; omega
  | succ n ih =>
    intro i h
    match i with
    | 0 => rfl
    | i + 1 => exact ih i (by omega)

lemma byteAt_noTrailingNulBuf_tail (t : Nat) (h13 : 13 ≤ t) (hub : t ≤ 1012) :
    byteAt noTrailingNulBuf t = 0x41 := by
  simp only [noTrailingNulBuf, byteAt]
  rw [List.getD_append_right _ _ _ _
    (by simp only [List.length_append, List.length_replicate, List.length_cons,
      List.length_nil]; omega)]
  exact getD_replicate_of_lt 0x41 0 1000 _
    (by simp only [List.length_append, List.length_replicate, List.length_cons,
      List.length_nil]; omega)

/-- C7 counterexample: a 1013-byte buffer whose final 1000 bytes contain
no NUL still yields a copyright result, because the backward NUL scan is
not bounded to the last 1000 bytes — it walks the whole file and finds
the NUL at index 12 (with a qualifying 0xFF tagged header before it). -/
theorem find_copyright_nul_scan_unbounded :
    (find_copyright_and_version noTrailingNulBuf).isSome = true ∧
    ∀ b ∈ noTrailingNulBuf.drop (noTrailingNulBuf.length - 1000), b ≠ 0 := by
  constructor
  · have hz : findZeroFrom noTrailingNulBuf (1013 - 1) = some 12 := by
      have hskip := findZeroFrom_skip noTrailingNulBuf 12 1000
        (fun t ht1 ht2 => by
          rw [byteAt_noTrailingNulBuf_tail t (by omega) (by omega)]
          omega)
      rw [show (1013 - 1 : Nat) = 12 + 1000 by omega, hskip]
      decide
    have htag : findTagGo noTrailingNulBuf 1013 12 (12 - 1) (12 - 1 - (12 - 1000))
        = some 1 := by decide
    unfold find_copyright_and_version
    rw [noTrailingNulBuf_length]
    rw [if_neg (by omega)]
    simp only [hz, htag]
    rfl
  · have hdrop : noTrailingNulBuf.drop (noTrailingNulBuf.length - 1000)
        = List.replicate 1000 0x41 := by
      rw [noTrailingNulBuf_length,
        show (1013 - 1000 : Nat)
          = ([0x41, 0xFF] ++ (List.replicate 10 0x41 ++ [0x00])).length by simp,
        noTrailingNulBuf, List.drop_left]
    rw [hdrop]
    intro b hb
    have := List.eq_of_mem_replicate hb
    omega

/-- The bounded backward tagged-byte scan finds nothing when no visited
position qualifies. -/
lemma findTagGo_none (buf : List Nat) (flen z : Nat) :
    ∀ steps i, (∀ j, j ≤ i → i < j + steps →
        ¬(byteAt buf j = 0xFF ∧ j + 10 ≤ flen ∧ j + 10 < z)) →
      findTagGo buf flen z i steps = none := by
  intro steps
  induction steps with
  | zero => intro i _; rfl
  | succ s ih =>
    intro i h
    simp only [findTagGo]
    rw [if_neg (h i (by omega) (by omega))]
    exact ih (i - 1) (fun j hj hlt => h j (by omega) (by omega))

/-- C7 (amended): the 1000-byte bound governs the backward tagged-block
search that starts at the NUL position, not the NUL search itself (which
walks the whole file, as the counterexample shows).  When no position in
the up-to-1000-byte window strictly before the found NUL holds a
qualifying 0xFF tagged header, the scanner yields no copyright result. -/
theorem find_copyright_tag_scan_bounded (buf : List Nat) (z : Nat)
    (hlen : 10 ≤ buf.length)
    (hz : findZeroFrom buf (buf.length - 1) = some z)
    (hwin : ∀ i, z - 1000 < i → i + 1 ≤ z →
      ¬(byteAt buf i = 0xFF ∧ i + 10 ≤ buf.length ∧ i + 10 < z)) :
    find_copyright_and_version buf = none := by
  have htag : findTagGo buf buf.length z (z - 1) (z - 1 - (z - 1000)) = none :=
    findTagGo_none buf buf.length z (z - 1 - (z - 1000)) (z - 1)
      (fun j hj hlt => hwin j (by omega) (by omega))
  unfold find_copyright_and_version
  rw [if_neg (by omega)]
  simp only [hz, htag]

/-- C7 witness: a 21-byte buffer with its last NUL at index 15 and no
0xFF byte anywhere: no copyright is found. -/
theorem find_copyright_tag_scan_bounded_witness :
    find_copyright_and_version
      (List.replicate 15 0x41 ++ [0] ++ List.replicate 5 0x41) = none :=
  find_copyright_tag_scan_bounded
    (List.replicate 15 0x41 ++ [0] ++ List.replicate 5 0x41) 15
    (by decide) (by decide)
    (by
      intro i h1 h2 hP
      have hlb : 1 ≤ i := by omega
      have hub : i ≤ 14 := by omega
      interval_cases i <;> revert hP <;> decide)

end CntryDump
